import Mathlib

/-!
Shallow embedding of the kusto-example client (src/main.go) and proofs about
its specified behaviour.  Strings coming from Go are modelled as `List Char`
where character-level reasoning is needed and as `String` elsewhere; Go byte
slices that hold textual payloads are modelled as `String` (Go strings are
byte strings, and `string(b)` is the identity under this view).  Errors are
modelled by their message text (`err.Error()`), since every classifier in the
program inspects only the message.
-/

namespace KustoExample

/-- Single-quote character (used by the query builders in `runProbe` and
`runInitSample`). -/
def sq : Char := Char.ofNat 39

/-- Model of Go `strings.Contains(hay, pat)` on character lists. -/
def goContains : List Char → List Char → Bool
  | [], pat => pat.isEmpty
  | c :: t, pat => pat.isPrefixOf (c :: t) || goContains t pat

/-- Model of Go `strings.ToLower` (the program only matches ASCII substrings,
so per-character lowering is faithful for every input that matters). -/
def goToLower (s : List Char) : List Char := s.map Char.toLower

/-- Model of Go `strings.ReplaceAll(s, old, new)` for a non-empty pattern:
replace every non-overlapping occurrence of `old`, scanning left to right.
The program only ever calls it with the single-character pattern `sq`, so the
empty-pattern branch (where Go inserts between characters) is dead and is
modelled as the identity. -/
def goReplaceAll (s old new : List Char) : List Char :=
  match s with
  | [] => []
  | c :: rest =>
    if old = [] then c :: rest
    else if h : old.isPrefixOf (c :: rest) then
      new ++ goReplaceAll ((c :: rest).drop old.length) old new
    else
      c :: goReplaceAll rest old new
termination_by s.length
decreasing_by
  · have hpre : old <+: (c :: rest) := by
      exact (List.isPrefixOf_iff_prefix).1 h
    have hlen : old.length ≤ (c :: rest).length := hpre.length_le
    have hpos : 0 < old.length := by
      cases old with
      | nil => simp_all
      | cons x xs => simp
    simp only [List.length_drop]
    omega
  · simp

/-- Model of Go `strings.TrimSpace` (leading and trailing whitespace
removed). -/
def goTrimSpace (s : List Char) : List Char :=
  ((s.dropWhile Char.isWhitespace).reverse.dropWhile Char.isWhitespace).reverse

/-- Embedding of `isNetworkErr` (src/main.go).  The `errors.As(err, &nErr)`
branch inspects the dynamic type of the error, which has no counterpart in a
message-only error model; errors are modelled by their message text alone, so
only the substring branch is embedded. -/
def isNetworkErr (msg : List Char) : Bool :=
  let m := goToLower msg
  goContains m "no such host".data || goContains m "connection refused".data ||
    goContains m "timeout".data

/-- Embedding of `looksLikeAAD` (src/main.go). -/
def looksLikeAAD (msg : List Char) : Bool :=
  let m := goToLower msg
  goContains m "aadsts".data || goContains m "token".data ||
    goContains m "credential".data

/-- Embedding of `isAuthErr` (src/main.go). -/
def isAuthErr (msg : List Char) : Bool :=
  let m := goToLower msg
  goContains m "unauthorized".data || goContains m "401".data ||
    goContains m "authorization".data

/-- Embedding of `isPermissionErr` (src/main.go). -/
def isPermissionErr (msg : List Char) : Bool :=
  let m := goToLower msg
  goContains m "forbidden".data || goContains m "403".data ||
    goContains m "insufficient".data || goContains m "permission".data

/-- Embedding of `isDatabaseNotFound` (src/main.go). -/
def isDatabaseNotFound (msg : List Char) : Bool :=
  let m := goToLower msg
  goContains m "database".data && goContains m "not found".data

/-- Embedding of `isTableNotFound` (src/main.go). -/
def isTableNotFound (msg : List Char) : Bool :=
  let m := goToLower msg
  goContains m "semantic".data &&
    (goContains m "table".data || goContains m "name".data) &&
    goContains m "not".data

/-! ## Data model for the query result stream (default query mode) -/

/-- Result of `json.Unmarshal` on a dynamic payload, kept abstract: the
program treats the parsed structure as a black-box value that it stores into
the record unchanged, so only its identity matters.  The `repr` field stands
for its (deterministic) `json.Marshal` encoding. -/
structure JsonVal where
  repr : String
deriving DecidableEq

/-- Value returned by `v.GetValue()` on a row value, as the Go type switch in
`main` sees it: a byte slice, a nullable pointer to a byte slice, or some
other scalar. -/
inductive GoAny where
  | goBytes (b : String)
  | goPtrBytes (p : Option String)
  | goInt (n : Int)
  | goStr (s : String)
  | goBool (b : Bool)
  | goNull
deriving DecidableEq

/-- Value stored into the emitted record for one column. -/
inductive FieldVal where
  | jnull
  | jparsed (j : JsonVal)
  | jtext (s : String)
  | raw (v : GoAny)
deriving DecidableEq

/-- Declared column type (`c.Type()`); only `dynamic` is treated specially by
the projector. -/
inductive ColType where
  | dynamic
  | stringT
  | longT
  | otherT (tag : String)
deriving DecidableEq

/-- Column metadata: name (`c.Name()`) and declared type (`c.Type()`). -/
structure Col where
  name : String
  type : ColType
deriving DecidableEq

/-- Embedding of the per-column body of the projection loop in `main`
(src/main.go lines 95-129).  `parse` models `json.Unmarshal`; `v = none`
models a nil interface value `vals[i] == nil`. -/
def projectValue (parse : String → Option JsonVal) (ctype : ColType)
    (v : Option GoAny) : FieldVal :=
  match v with
  | none => FieldVal.jnull
  | some gv =>
    if ctype = ColType.dynamic then
      match gv with
      | GoAny.goBytes b =>
        match parse b with
        | some j => FieldVal.jparsed j
        | none => FieldVal.jtext b
      | GoAny.goPtrBytes none => FieldVal.jnull
      | GoAny.goPtrBytes (some b) =>
        match parse b with
        | some j => FieldVal.jparsed j
        | none => FieldVal.jtext b
      | other => FieldVal.raw other
    else FieldVal.raw gv

/-- An emitted record: the contents of the Go map `obj`, kept in insertion
order.  Go map iteration order is arbitrary, but `json.Marshal` sorts map
keys, so only the key-value contents matter (see `marshalRecord`). -/
abbrev Record := List (String × FieldVal)

/-- Model of a Go map assignment `m[k] = v`: overwrite the binding when the
key is present, append it otherwise. -/
def mapSet (m : Record) (k : String) (v : FieldVal) : Record :=
  if m.any (fun p => p.1 = k) then
    m.map (fun p => if p.1 = k then (k, v) else p)
  else m ++ [(k, v)]

/-- Lookup in a record (Go map read). -/
def recLookup (m : Record) (k : String) : Option FieldVal :=
  (m.find? (fun p => p.1 = k)).map (fun p => p.2)

/-- Embedding of the record construction for one row in `main`
(src/main.go lines 90-129): the three synthetic keys are set first, then each
column in order (columns beyond the length of `vals` are skipped). -/
def projectCols (parse : String → Option JsonVal) :
    List Col → Nat → List (Option GoAny) → Record → Record
  | [], _, _, acc => acc
  | c :: cs, i, vals, acc =>
    if h : i < vals.length then
      projectCols parse cs (i + 1) vals
        (mapSet acc c.name (projectValue parse c.type (vals.get ⟨i, h⟩)))
    else
      projectCols parse cs (i + 1) vals acc

/-- Record built for one row: synthetic keys `_table`, `_kind`, `_rowIndex`
followed by the projected columns. -/
def projectRow (parse : String → Option JsonVal) (tname kind : String)
    (idx : Int) (cols : List Col) (vals : List (Option GoAny)) : Record :=
  projectCols parse cols 0 vals
    (mapSet (mapSet (mapSet [] "_table" (FieldVal.raw (GoAny.goStr tname)))
      "_kind" (FieldVal.raw (GoAny.goStr kind)))
      "_rowIndex" (FieldVal.raw (GoAny.goInt idx)))

/-! ## Serialization (`json.Marshal` of the record map) -/

/-- JSON string quoting.  Go escapes special characters inside the quotes;
the escaping is itself a deterministic character map and is elided here, as
no claim depends on it. -/
def quoteStr (s : String) : String := "\"" ++ s ++ "\""

/-- Deterministic JSON encoding of a raw scalar (Go encodes byte slices in
base64; any fixed injective encoding serves the claims equally). -/
def serializeGoAny : GoAny → String
  | GoAny.goBytes b => quoteStr b
  | GoAny.goPtrBytes none => "null"
  | GoAny.goPtrBytes (some b) => quoteStr b
  | GoAny.goInt n => toString n
  | GoAny.goStr s => quoteStr s
  | GoAny.goBool true => "true"
  | GoAny.goBool false => "false"
  | GoAny.goNull => "null"

/-- JSON encoding of one record field. -/
def serializeField : FieldVal → String
  | FieldVal.jnull => "null"
  | FieldVal.jparsed j => j.repr
  | FieldVal.jtext s => quoteStr s
  | FieldVal.raw v => serializeGoAny v

/-- Insertion of a record entry into a key-sorted list (helper for the
key-sorting performed by `json.Marshal` on Go maps). -/
def insertByKey (p : String × FieldVal) : Record → Record
  | [] => [p]
  | q :: r => if p.1 ≤ q.1 then p :: q :: r else q :: insertByKey p r

/-- Sort a record by key, modelling the documented `json.Marshal` behaviour
of emitting map keys in sorted order. -/
def sortByKey : Record → Record
  | [] => []
  | p :: r => insertByKey p (sortByKey r)

/-- Embedding of `json.Marshal(obj)` for the record map.  `reorder` models
the arbitrary iteration order in which the map hands its entries to the
encoder (Go randomizes it); the encoder then sorts the keys, which is what
makes the output independent of `reorder`. -/
def marshalRecord (reorder : Record → Record) (r : Record) : String :=
  "\x7b" ++
    String.intercalate ","
      ((sortByKey (reorder r)).map
        (fun p => quoteStr p.1 ++ ":" ++ serializeField p.2)) ++
    "\x7d"

/-! ## Result stream -/

/-- One table of the iterative result stream: name, kind tag, column list and
row results.  A row result is either the list of its values or a transport
error (`rowResult.Err()`). -/
structure KTable where
  name : String
  kind : String
  cols : List Col
  rows : List (Except String (List (Option GoAny)))

/-- Records built for the rows of one table, starting at row index `idx`:
stops at the first row error (main calls `log.Fatalf` there).  `Row.Index()`
is the ordinal of the row within its table, zero-based, per the SDK; it is
modelled by the position counter `idx`. -/
def emitRowRecords (parse : String → Option JsonVal) (tname kind : String)
    (cols : List Col) :
    List (Except String (List (Option GoAny))) → Int →
      List Record × Option String
  | [], _ => ([], none)
  | Except.error e :: _, _ => ([], some e)
  | Except.ok vals :: rest, idx =>
    let r := emitRowRecords parse tname kind cols rest (idx + 1)
    (projectRow parse tname kind idx cols vals :: r.1, r.2)

/-- Records of one table (row indices start at 0). -/
def tableRecords (parse : String → Option JsonVal) (t : KTable) :
    List Record × Option String :=
  emitRowRecords parse t.name t.kind t.cols t.rows 0

/-- Embedding of the default query mode loop in `main` (src/main.go lines
74-137): emit one NDJSON line per row, aborting at the first table or row
error (`log.Fatalf`). -/
def emitTables (parse : String → Option JsonVal) (reorder : Record → Record) :
    List (Except String KTable) → List String × Option String
  | [] => ([], none)
  | Except.error e :: _ => ([], some e)
  | Except.ok t :: rest =>
    let r := tableRecords parse t
    let lines := r.1.map (marshalRecord reorder)
    match r.2 with
    | some e => (lines, some e)
    | none =>
      let rr := emitTables parse reorder rest
      (lines ++ rr.1, rr.2)

/-! ## queryHasAnyRow (probe step 3 helper) -/

/-- Embedding of `queryHasAnyRow` (src/main.go lines 313-337): scan the
tables in order; a table error or a row error of a `PrimaryResult` table
stops the scan with that error; the first row of a `PrimaryResult` table
yields true; an exhausted stream yields false.  Tables with any other name
are skipped without touching their rows. -/
def queryHasAnyRow : List (Except String KTable) → Except String Bool
  | [] => Except.ok false
  | Except.error e :: _ => Except.error e
  | Except.ok t :: rest =>
    if t.name = "PrimaryResult" then
      match t.rows with
      | [] => queryHasAnyRow rest
      | Except.error e :: _ => Except.error e
      | Except.ok _ :: _ => Except.ok true
    else queryHasAnyRow rest

/-! ## Configuration helpers -/

/-- Durations in nanoseconds, as in Go `time.Duration`. -/
abbrev Duration := Int

/-- Embedding of `getDurationEnv` (src/main.go lines 351-360).
`parseDuration` models `time.ParseDuration` (external library code) and
`envVal` the raw value of the environment variable (empty when unset). -/
def getDurationEnv (parseDuration : String → Option Duration)
    (envVal : String) (dflt : Duration) : Duration :=
  let v := goTrimSpace envVal.data
  if v = [] then dflt
  else
    match parseDuration (String.mk v) with
    | some d => d
    | none => dflt

/-- Per-step probe timeout as computed at the `runProbe` call site
(src/main.go line 153): default three seconds. -/
def probeStepTimeout (parseDuration : String → Option Duration)
    (envVal : String) : Duration :=
  getDurationEnv parseDuration envVal (3 * 1000000000)

/-! ## Generated query text (probe step 3 and the initializer) -/

/-- Quote escaping applied to the expected marker:
`strings.ReplaceAll(expectMsg, single-quote, two single-quotes)`. -/
def escapeQuotes (s : String) : String :=
  String.mk (goReplaceAll s.data [sq] [sq, sq])

/-- The sample-data filter query built in `runProbe` step 3
(src/main.go lines 188-190). -/
def sampleDataQuery (table msg : String) : String :=
  table ++ " | where Message == " ++ sq.toString ++ escapeQuotes msg ++
    sq.toString ++ " | take 1"

/-- The append command built in `runInitSample` (src/main.go line 403). -/
def appendCommand (table msg : String) : String :=
  ".set-or-append " ++ table ++ " <| print Message=" ++ sq.toString ++
    escapeQuotes msg ++ sq.toString ++ ", When=now()"

/-- The create-merge command built in `runInitSample`
(src/main.go line 397). -/
def createMergeCommand (table : String) : String :=
  ".create-merge table " ++ table ++ " (Message:string, When:datetime)"

/-! ## Probe model -/

/-- Observable events of a probe run.  `evOpenClient` and `evCloseClient`
track the client resource (`azkustodata.New` / the deferred
`client.Close()`); `evOk` and `evFail` are the `okTimed` and
`failTimed`/`fail` status lines (elapsed times elided as wall-clock values);
`evPrintln` is a plain output line. -/
inductive PEv where
  | evOpenClient
  | evCloseClient
  | evOk (step msg : String)
  | evFail (step msg : String) (err : Option String) (sug : String)
  | evPrintln (s : String)
deriving DecidableEq

/-- Embedding of `suggestionForAuth` (src/main.go). -/
def suggestionForAuth : String :=
  "Ensure Azure auth is available: run " ++ sq.toString ++ "az login" ++
    sq.toString ++
    " or configure DefaultAzureCredential (AZURE_TENANT_ID, AZURE_CLIENT_ID/SECRET)."

/-- Embedding of `suggestionForEndpointOrAuth` (src/main.go). -/
def suggestionForEndpointOrAuth (err : String) : String :=
  if isNetworkErr err.data then
    "Verify KUSTO_CLUSTER endpoint is correct (https://<cluster>.<region>.kusto.windows.net) and reachable."
  else if looksLikeAAD err.data || isAuthErr err.data then suggestionForAuth
  else "Check endpoint and authentication."

/-- Embedding of `suggestionForDatabase` (src/main.go). -/
def suggestionForDatabase (err db : String) : String :=
  if isDatabaseNotFound err.data then
    "Database " ++ sq.toString ++ db ++ sq.toString ++
      " not found. Verify KUSTO_DATABASE or create it (see kusto.sh)."
  else if isPermissionErr err.data then
    "You may lack database permissions. Ensure your identity has access (e.g., Admin/User role)."
  else "Verify KUSTO_DATABASE and your permissions."

/-- Embedding of `suggestionForPermissions` (src/main.go). -/
def suggestionForPermissions : String :=
  "Grant your identity read access to the database/table (e.g., Admin/User role)."

/-- Embedding of `suggestionForQuery` (src/main.go). -/
def suggestionForQuery (table : String) : String :=
  "Investigate query or connectivity issues for table " ++ sq.toString ++
    table ++ sq.toString ++ "."

/-- Probe configuration, resolved from the environment in `runProbe`. -/
structure ProbeCfg where
  database : String
  sampleTable : String
  expectMsg : String

/-- Outcomes the external service would give to each call the probe makes,
in the order the probe would make them.  Errors are their message text. -/
structure ProbeWorld where
  clientErr : Option String
  mgmtErr : Option String
  dbErr : Option String
  sampleStream : List (Except String KTable)

/-- The step 3 message for the zero-rows outcome (src/main.go line 205). -/
def notFoundMsg (cfg : ProbeCfg) : String :=
  "expected row not found in " ++ cfg.sampleTable ++ " (Message==" ++
    sq.toString ++ cfg.expectMsg ++ sq.toString ++ ")"

/-- Embedding of `runProbe` (src/main.go lines 146-215).  Each trace ends at
the first `fail`/`failTimed`, because those call `os.Exit(1)`, which
terminates the process immediately without running deferred functions: in
particular the deferred `client.Close()` does not run on any failure path,
so `evCloseClient` appears only in the all-success trace.  The step 3 query
it runs is `sampleDataQuery cfg.sampleTable cfg.expectMsg`, evaluated through
`queryHasAnyRow` on the stream the world delivers for it. -/
def runProbe (cfg : ProbeCfg) (w : ProbeWorld) : List PEv × Nat :=
  match w.clientErr with
  | some e =>
    ([PEv.evFail "auth/client" "failed to create Kusto client" (some e)
        suggestionForAuth], 1)
  | none =>
    match w.mgmtErr with
    | some e =>
      ([PEv.evOpenClient,
        PEv.evFail "mgmt" ".show version failed" (some e)
          (suggestionForEndpointOrAuth e)], 1)
    | none =>
      match w.dbErr with
      | some e =>
        ([PEv.evOpenClient, PEv.evOk "mgmt" "cluster reachable",
          PEv.evFail "database" "basic query failed" (some e)
            (suggestionForDatabase e cfg.database)], 1)
      | none =>
        match queryHasAnyRow w.sampleStream with
        | Except.error e =>
          let msg :=
            if isTableNotFound e.data then
              "sample table not found: " ++ cfg.sampleTable
            else if isPermissionErr e.data then
              "no access to sample table: " ++ cfg.sampleTable
            else "query failed for sample table"
          let sug :=
            if isTableNotFound e.data then
              "Run kusto.sh probe or create to initialize the sample table."
            else if isPermissionErr e.data then suggestionForPermissions
            else suggestionForQuery cfg.sampleTable
          ([PEv.evOpenClient, PEv.evOk "mgmt" "cluster reachable",
            PEv.evOk "database" ("db ok: " ++ cfg.database),
            PEv.evFail "data-sample" msg (some e) sug], 1)
        | Except.ok false =>
          ([PEv.evOpenClient, PEv.evOk "mgmt" "cluster reachable",
            PEv.evOk "database" ("db ok: " ++ cfg.database),
            PEv.evFail "data-sample" (notFoundMsg cfg) none
              "Initialize sample data via kusto.sh or verify ingestion."], 1)
        | Except.ok true =>
          ([PEv.evOpenClient, PEv.evOk "mgmt" "cluster reachable",
            PEv.evOk "database" ("db ok: " ++ cfg.database),
            PEv.evOk "data-sample"
              ("sample table ok: " ++ cfg.sampleTable ++
                " contains expected data"),
            PEv.evPrintln "OK probe: endpoint, db, and data access validated",
            PEv.evCloseClient], 0)

/-! ## Spec-side predicates used by the theorems -/

/-- Character-wise description of quote doubling: every single-quote becomes
two, all other characters pass through. -/
def specQuoteDoubling (s : List Char) : List Char :=
  s.flatMap (fun a => if a = sq then [sq, sq] else [a])

/-- Checks that every single-quote in the list occurs as part of an adjacent
pair (no lone quote that could terminate a quoted literal early). -/
def quotesDoubled : List Char → Bool
  | [] => true
  | a :: rest =>
    if a = sq then
      match rest with
      | [] => false
      | b :: rest2 => if b = sq then quotesDoubled rest2 else false
    else quotesDoubled rest

/-- A stream element that `queryHasAnyRow` scans past without stopping: an
ok table that is either not `PrimaryResult` or has no row results at all. -/
def okNoHit (x : Except String KTable) : Prop :=
  ∃ u, x = Except.ok u ∧ (u.name = "PrimaryResult" → u.rows = [])

/-- A stream in which no error can interfere with the scan: every table
result is ok and every row result of every `PrimaryResult` table is ok. -/
def cleanPrim (ts : List (Except String KTable)) : Prop :=
  ∀ x ∈ ts, ∃ t, x = Except.ok t ∧
    (t.name = "PrimaryResult" → ∀ r ∈ t.rows, ∃ v, r = Except.ok v)

/-- Ordering of record entries by key. -/
def keyLe (a b : String × FieldVal) : Prop := a.1 ≤ b.1

/-- Strict ordering of record entries by key. -/
def keyLt (a b : String × FieldVal) : Prop := a.1 < b.1

instance : IsAntisymm (String × FieldVal) keyLt :=
  ⟨fun _ _ h1 h2 => absurd (lt_trans h1 h2) (lt_irrefl _)⟩

/-! ## Helper lemmas -/

theorem goContains_correct (hay pat : List Char) :
    goContains hay pat = true ↔ pat <:+: hay := by
  induction hay with
  | nil =>
    simp [goContains, List.isEmpty_iff]
  | cons c t ih =>
    simp [goContains, Bool.or_eq_true, List.isPrefixOf_iff_prefix, ih,
      List.infix_cons_iff]

/-! ## C6: error classification -/

/-- C6: error classification is a pure function of the lower-cased error
text: `isPermissionErr` holds exactly when the lower-cased message contains
one of "forbidden", "403", "insufficient", "permission", and
`isTableNotFound` holds exactly when it contains "semantic", one of "table"
or "name", and "not". -/
theorem errorClassification_spec (msg : List Char) :
    (isPermissionErr msg = true ↔
      (goContains (goToLower msg) "forbidden".data = true ∨
        goContains (goToLower msg) "403".data = true ∨
        goContains (goToLower msg) "insufficient".data = true ∨
        goContains (goToLower msg) "permission".data = true)) ∧
    (isTableNotFound msg = true ↔
      (goContains (goToLower msg) "semantic".data = true ∧
        (goContains (goToLower msg) "table".data = true ∨
          goContains (goToLower msg) "name".data = true) ∧
        goContains (goToLower msg) "not".data = true)) := by
  constructor
  · simp [isPermissionErr, Bool.or_eq_true, or_assoc]
  · simp [isTableNotFound, Bool.and_eq_true, Bool.or_eq_true, and_assoc]

/-! ## C8: probe timeout configuration -/

/-- C8: the per-step probe timeout is the environment duration when it
parses, and the default of three seconds when the trimmed value is empty or
unparseable. -/
theorem getDurationEnv_spec (parseDuration : String → Option Duration)
    (envVal : String) :
    (goTrimSpace envVal.data = [] →
      probeStepTimeout parseDuration envVal = 3 * 1000000000) ∧
    (goTrimSpace envVal.data ≠ [] →
      parseDuration (String.mk (goTrimSpace envVal.data)) = none →
      probeStepTimeout parseDuration envVal = 3 * 1000000000) ∧
    (∀ d, goTrimSpace envVal.data ≠ [] →
      parseDuration (String.mk (goTrimSpace envVal.data)) = some d →
      probeStepTimeout parseDuration envVal = d) := by
  refine ⟨fun h => ?_, fun h hp => ?_, fun d h hp => ?_⟩
  · simp [probeStepTimeout, getDurationEnv, h]
  · simp [probeStepTimeout, getDurationEnv, h, hp]
  · simp [probeStepTimeout, getDurationEnv, h, hp]

/-- Witness for C8 at concrete inputs: a blank value, a parseable value with
surrounding whitespace, and an unparseable value. -/
theorem getDurationEnv_spec_witness :
    probeStepTimeout (fun s => if s = "5s" then some 5000000000 else none)
        "   " = 3 * 1000000000 ∧
    probeStepTimeout (fun s => if s = "5s" then some 5000000000 else none)
        " 5s " = 5000000000 ∧
    probeStepTimeout (fun s => if s = "5s" then some 5000000000 else none)
        "bogus" = 3 * 1000000000 :=
  ⟨(getDurationEnv_spec _ "   ").1 (by decide),
   (getDurationEnv_spec _ " 5s ").2.2 5000000000 (by decide) (by decide),
   (getDurationEnv_spec _ "bogus").2.1 (by decide) (by decide)⟩

/-! ## C1: dynamic column projection -/

/-- C1: a dynamic column whose raw value is a byte payload is emitted as the
parsed JSON structure when the payload parses, and as the text decoding of
the bytes when it does not; an absent nullable wrapper or a nil value is
emitted as null.  The projector is a total function, so no payload makes the
projection of the row fail. -/
theorem projectValue_dynamic_spec (parse : String → Option JsonVal)
    (b : String) (j : JsonVal) :
    (parse b = some j →
      projectValue parse ColType.dynamic (some (GoAny.goBytes b)) =
        FieldVal.jparsed j) ∧
    (parse b = none →
      projectValue parse ColType.dynamic (some (GoAny.goBytes b)) =
        FieldVal.jtext b) ∧
    (parse b = some j →
      projectValue parse ColType.dynamic (some (GoAny.goPtrBytes (some b))) =
        FieldVal.jparsed j) ∧
    (parse b = none →
      projectValue parse ColType.dynamic (some (GoAny.goPtrBytes (some b))) =
        FieldVal.jtext b) ∧
    projectValue parse ColType.dynamic (some (GoAny.goPtrBytes none)) =
      FieldVal.jnull ∧
    projectValue parse ColType.dynamic none = FieldVal.jnull := by
  refine ⟨fun h => ?_, fun h => ?_, fun h => ?_, fun h => ?_, ?_, ?_⟩
  · simp [projectValue, h]
  · simp [projectValue, h]
  · simp [projectValue, h]
  · simp [projectValue, h]
  · simp [projectValue]
  · simp [projectValue]

/-- Witness for C1: a parser that accepts everything and one that rejects
everything, applied to a concrete payload. -/
theorem projectValue_dynamic_spec_witness :
    projectValue (fun s => some ⟨s⟩) ColType.dynamic
        (some (GoAny.goBytes "x")) = FieldVal.jparsed ⟨"x"⟩ ∧
    projectValue (fun _ => none) ColType.dynamic
        (some (GoAny.goBytes "x")) = FieldVal.jtext "x" ∧
    projectValue (fun _ => none) ColType.dynamic
        (some (GoAny.goPtrBytes none)) = FieldVal.jnull :=
  ⟨(projectValue_dynamic_spec (fun s => some ⟨s⟩) "x" ⟨"x"⟩).1 rfl,
   (projectValue_dynamic_spec (fun _ => none) "x" ⟨"x"⟩).2.1 rfl,
   (projectValue_dynamic_spec (fun _ => none) "x" ⟨"x"⟩).2.2.2.2.1⟩

/-! ## C2: probe step ordering and short-circuiting -/

/-- C2: the probe runs management, database, sample-data in that order and
stops at the first failure: a management failure leaves steps 2 and 3
unexecuted and exits non-zero, a database failure leaves step 3 unexecuted
and exits non-zero; when nothing fails early, the three steps appear in the
trace in the fixed order. -/
theorem runProbe_short_circuit (cfg : ProbeCfg) (w : ProbeWorld) :
    (∀ e, w.clientErr = none → w.mgmtErr = some e →
      runProbe cfg w =
        ([PEv.evOpenClient,
          PEv.evFail "mgmt" ".show version failed" (some e)
            (suggestionForEndpointOrAuth e)], 1)) ∧
    (∀ e, w.clientErr = none → w.mgmtErr = none → w.dbErr = some e →
      runProbe cfg w =
        ([PEv.evOpenClient, PEv.evOk "mgmt" "cluster reachable",
          PEv.evFail "database" "basic query failed" (some e)
            (suggestionForDatabase e cfg.database)], 1)) ∧
    (w.clientErr = none → w.mgmtErr = none → w.dbErr = none →
      (runProbe cfg w).1.take 3 =
        [PEv.evOpenClient, PEv.evOk "mgmt" "cluster reachable",
          PEv.evOk "database" ("db ok: " ++ cfg.database)]) := by
  obtain ⟨ce, me, de, ss⟩ := w
  refine ⟨fun e h1 h2 => ?_, fun e h1 h2 h3 => ?_, fun h1 h2 h3 => ?_⟩
  · simp only at h1 h2
    subst h1; subst h2
    simp [runProbe]
  · simp only at h1 h2 h3
    subst h1; subst h2; subst h3
    simp [runProbe]
  · simp only at h1 h2 h3
    subst h1; subst h2; subst h3
    rcases hq : queryHasAnyRow ss with e | b
    · simp [runProbe, hq]
    · cases b
      · simp [runProbe, hq]
      · simp [runProbe, hq]

/-- Witness for C2: a concrete world whose management call fails. -/
theorem runProbe_short_circuit_witness :
    runProbe ⟨"sampledb", "ProbeTest", "kusto-sample-ok"⟩
        ⟨none, some "no such host", none, []⟩ =
      ([PEv.evOpenClient,
        PEv.evFail "mgmt" ".show version failed" (some "no such host")
          (suggestionForEndpointOrAuth "no such host")], 1) :=
  (runProbe_short_circuit ⟨"sampledb", "ProbeTest", "kusto-sample-ok"⟩
    ⟨none, some "no such host", none, []⟩).1 "no such host" rfl rfl

theorem infix_append_left {α : Type} {pat a : List α} (b : List α)
    (h : pat <:+: a) : pat <:+: a ++ b := by
  rcases h with ⟨s, t, hst⟩
  exact ⟨s, t ++ b, by rw [← hst]; simp⟩

/-! ## C4: zero-rows outcome of the sample-data step -/

/-- C4: when steps 1 and 2 succeed and the sample query completes without
error but yields no row, the probe fails the data-sample step with a message
that describes the expected row as not found, carries no underlying error
(the `err` component of the fail event is `none`), and exits non-zero just
like a hard failure. -/
theorem runProbe_zero_rows_spec (cfg : ProbeCfg) (w : ProbeWorld) :
    w.clientErr = none → w.mgmtErr = none → w.dbErr = none →
    queryHasAnyRow w.sampleStream = Except.ok false →
    runProbe cfg w =
      ([PEv.evOpenClient, PEv.evOk "mgmt" "cluster reachable",
        PEv.evOk "database" ("db ok: " ++ cfg.database),
        PEv.evFail "data-sample" (notFoundMsg cfg) none
          "Initialize sample data via kusto.sh or verify ingestion."], 1) ∧
    goContains (notFoundMsg cfg).data "not found".data = true := by
  intro h1 h2 h3 h4
  obtain ⟨ce, me, de, ss⟩ := w
  simp only at h1 h2 h3 h4
  subst h1; subst h2; subst h3
  constructor
  · simp [runProbe, h4]
  · have hd : (notFoundMsg cfg).data =
        "expected row not found in ".data ++
          (cfg.sampleTable ++ " (Message==" ++ sq.toString ++
            cfg.expectMsg ++ sq.toString ++ ")").data := by
      simp [notFoundMsg, String.data_append]
    rw [goContains_correct, hd]
    refine infix_append_left _ ?_
    exact (goContains_correct _ _).1 (by decide)

/-- Witness for C4: an empty `PrimaryResult` table. -/
theorem runProbe_zero_rows_spec_witness :
    runProbe ⟨"sampledb", "ProbeTest", "kusto-sample-ok"⟩
        ⟨none, none, none, [Except.ok ⟨"PrimaryResult", "pr", [], []⟩]⟩ =
      ([PEv.evOpenClient, PEv.evOk "mgmt" "cluster reachable",
        PEv.evOk "database" ("db ok: " ++ "sampledb"),
        PEv.evFail "data-sample"
          (notFoundMsg ⟨"sampledb", "ProbeTest", "kusto-sample-ok"⟩) none
          "Initialize sample data via kusto.sh or verify ingestion."], 1) :=
  (runProbe_zero_rows_spec ⟨"sampledb", "ProbeTest", "kusto-sample-ok"⟩
    ⟨none, none, none, [Except.ok ⟨"PrimaryResult", "pr", [], []⟩]⟩
    rfl rfl rfl rfl).1

/-! ## C5: resource release on failure paths -/

/-- C5 evaluation: on a failing probe step the process exits through
`os.Exit(1)` (inside `failTimed`), which terminates without running deferred
functions, so the deferred `client.Close()` never executes: the failure
trace opens the client and exits with code 1 without a close event, while
the all-success trace does close the client on return. -/
theorem probe_failure_skips_client_close :
    (runProbe ⟨"sampledb", "ProbeTest", "kusto-sample-ok"⟩
        ⟨none, some "connection refused", none, []⟩).2 = 1 ∧
    PEv.evOpenClient ∈
      (runProbe ⟨"sampledb", "ProbeTest", "kusto-sample-ok"⟩
        ⟨none, some "connection refused", none, []⟩).1 ∧
    PEv.evCloseClient ∉
      (runProbe ⟨"sampledb", "ProbeTest", "kusto-sample-ok"⟩
        ⟨none, some "connection refused", none, []⟩).1 ∧
    PEv.evCloseClient ∈
      (runProbe ⟨"sampledb", "ProbeTest", "kusto-sample-ok"⟩
        ⟨none, none, none,
          [Except.ok ⟨"PrimaryResult", "pr", [], [Except.ok []]⟩]⟩).1 := by
  decide

theorem goReplaceAll_singleton (s : List Char) (c : Char) (new : List Char) :
    goReplaceAll s [c] new =
      s.flatMap (fun a => if a = c then new else [a]) := by
  induction s with
  | nil => simp [goReplaceAll]
  | cons a t ih =>
    by_cases hac : a = c
    · subst hac
      have hp : [a].isPrefixOf (a :: t) = true := by simp [List.isPrefixOf]
      simp [goReplaceAll, hp, ih]
    · have hca : c ≠ a := fun h => hac h.symm
      have hp : [c].isPrefixOf (a :: t) = false := by
        simp [List.isPrefixOf, hca]
      simp [goReplaceAll, hp, ih, hac]

theorem quotesDoubled_cons_ne (a : Char) (l : List Char) (ha : a ≠ sq) :
    quotesDoubled (a :: l) = quotesDoubled l := by
  cases l <;> simp [quotesDoubled, ha]

theorem quotesDoubled_pair (l : List Char) :
    quotesDoubled (sq :: sq :: l) = quotesDoubled l := by
  simp [quotesDoubled]

theorem quotesDoubled_specQuoteDoubling (s : List Char) :
    quotesDoubled (specQuoteDoubling s) = true := by
  induction s with
  | nil => simp [specQuoteDoubling, quotesDoubled]
  | cons a t ih =>
    by_cases ha : a = sq
    · subst ha
      simpa [specQuoteDoubling, quotesDoubled_pair] using ih
    · simpa [specQuoteDoubling, quotesDoubled_cons_ne a _ ha, ha] using ih

/-! ## C3: quote escaping in generated query text -/

/-- C3: the sample-data filter query and the initializer append command both
embed the expected marker with every single-quote doubled: the escaping step
is exactly the character-wise doubling map, and the escaped text never
contains a lone single-quote. -/
theorem quote_escaping_spec (table msg : String) :
    sampleDataQuery table msg =
      table ++ " | where Message == " ++ sq.toString ++
        String.mk (specQuoteDoubling msg.data) ++ sq.toString ++
        " | take 1" ∧
    appendCommand table msg =
      ".set-or-append " ++ table ++ " <| print Message=" ++ sq.toString ++
        String.mk (specQuoteDoubling msg.data) ++ sq.toString ++
        ", When=now()" ∧
    (escapeQuotes msg).data = specQuoteDoubling msg.data ∧
    quotesDoubled (escapeQuotes msg).data = true := by
  have he : escapeQuotes msg = String.mk (specQuoteDoubling msg.data) := by
    simp [escapeQuotes, goReplaceAll_singleton, specQuoteDoubling]
  refine ⟨?_, ?_, ?_, ?_⟩
  · simp [sampleDataQuery, he]
  · simp [appendCommand, he]
  · rw [he]
  · rw [he]
    exact quotesDoubled_specQuoteDoubling msg.data

theorem queryHasAnyRow_ok_true (ts : List (Except String KTable))
    (h : queryHasAnyRow ts = Except.ok true) :
    ∃ t, Except.ok t ∈ ts ∧ t.name = "PrimaryResult" ∧ t.rows ≠ [] := by
  induction ts with
  | nil => simp [queryHasAnyRow] at h
  | cons x rest ih =>
    cases x with
    | error e => simp [queryHasAnyRow] at h
    | ok t =>
      by_cases hn : t.name = "PrimaryResult"
      · cases hr : t.rows with
        | nil =>
          rw [queryHasAnyRow, if_pos hn, hr] at h
          obtain ⟨u, hmem, hu⟩ := ih h
          exact ⟨u, List.mem_cons_of_mem _ hmem, hu⟩
        | cons r rs =>
          cases r with
          | error e => rw [queryHasAnyRow, if_pos hn, hr] at h; cases h
          | ok v =>
            exact ⟨t, List.mem_cons_self _ _, hn, by rw [hr]; simp⟩
      · rw [queryHasAnyRow, if_neg hn] at h
        obtain ⟨u, hmem, hu⟩ := ih h
        exact ⟨u, List.mem_cons_of_mem _ hmem, hu⟩

theorem queryHasAnyRow_clean_complete (ts : List (Except String KTable))
    (hc : cleanPrim ts) (t : KTable) (hmem : Except.ok t ∈ ts)
    (hname : t.name = "PrimaryResult") (hrows : t.rows ≠ []) :
    queryHasAnyRow ts = Except.ok true := by
  induction ts with
  | nil => simp at hmem
  | cons x rest ih =>
    obtain ⟨u, hxu, hclean⟩ := hc x (List.mem_cons_self _ _)
    subst hxu
    have hcrest : cleanPrim rest := fun y hy => hc y (List.mem_cons_of_mem _ hy)
    by_cases hn : u.name = "PrimaryResult"
    · cases hu : u.rows with
      | nil =>
        rw [queryHasAnyRow, if_pos hn, hu]
        rcases List.mem_cons.1 hmem with heq | hmem2
        · have ht : t = u := by injection heq
          subst ht
          exact absurd hu hrows
        · exact ih hcrest hmem2
      | cons r rs =>
        obtain ⟨v, hv⟩ := hclean hn r (by rw [hu]; exact List.mem_cons_self _ _)
        subst hv
        rw [queryHasAnyRow, if_pos hn, hu]
    · rw [queryHasAnyRow, if_neg hn]
      rcases List.mem_cons.1 hmem with heq | hmem2
      · have ht : t = u := by injection heq
        subst ht
        exact absurd hname hn
      · exact ih hcrest hmem2

theorem queryHasAnyRow_skip (pre : List (Except String KTable))
    (suf : List (Except String KTable)) (hpre : ∀ x ∈ pre, okNoHit x) :
    queryHasAnyRow (pre ++ suf) = queryHasAnyRow suf := by
  induction pre with
  | nil => rfl
  | cons x p ih =>
    obtain ⟨u, hxu, hu⟩ := hpre x (List.mem_cons_self _ _)
    subst hxu
    have hrest : ∀ y ∈ p, okNoHit y := fun y hy =>
      hpre y (List.mem_cons_of_mem _ hy)
    by_cases hn : u.name = "PrimaryResult"
    · rw [List.cons_append, queryHasAnyRow, if_pos hn, hu hn]
      exact ih hrest
    · rw [List.cons_append, queryHasAnyRow, if_neg hn]
      exact ih hrest

/-! ## C10: queryHasAnyRow characterization -/

/-- C10: `queryHasAnyRow` yields true (with no error) exactly when some
`PrimaryResult` table of the stream has a row; rows of other tables never
produce a true result; a table error, or a row error of a `PrimaryResult`
table, encountered before the first `PrimaryResult` row is returned as that
error (the boolean then being false by the `Except` shape).  The iff is
stated for streams whose scanned elements are error-free; the first conjunct
(soundness of a true result) holds unconditionally. -/
theorem queryHasAnyRow_spec (ts : List (Except String KTable)) :
    (queryHasAnyRow ts = Except.ok true →
      ∃ t, Except.ok t ∈ ts ∧ t.name = "PrimaryResult" ∧ t.rows ≠ []) ∧
    (cleanPrim ts →
      (queryHasAnyRow ts = Except.ok true ↔
        ∃ t, Except.ok t ∈ ts ∧ t.name = "PrimaryResult" ∧ t.rows ≠ [])) ∧
    (∀ pre e suf, ts = pre ++ Except.error e :: suf →
      (∀ x ∈ pre, okNoHit x) → queryHasAnyRow ts = Except.error e) ∧
    (∀ pre t e rs suf, ts = pre ++ Except.ok t :: suf →
      (∀ x ∈ pre, okNoHit x) → t.name = "PrimaryResult" →
      t.rows = Except.error e :: rs → queryHasAnyRow ts = Except.error e) := by
  refine ⟨queryHasAnyRow_ok_true ts, ?_, ?_, ?_⟩
  · intro hc
    constructor
    · exact queryHasAnyRow_ok_true ts
    · intro ⟨t, hmem, hname, hrows⟩
      exact queryHasAnyRow_clean_complete ts hc t hmem hname hrows
  · intro pre e suf hts hpre
    rw [hts, queryHasAnyRow_skip pre _ hpre, queryHasAnyRow]
  · intro pre t e rs suf hts hpre hname hrows
    rw [hts, queryHasAnyRow_skip pre _ hpre, queryHasAnyRow, if_pos hname,
      hrows]

/-- Witness for C10: a stream whose first element is a table error, and a
clean stream with one populated `PrimaryResult` table. -/
theorem queryHasAnyRow_spec_witness :
    queryHasAnyRow [Except.error "boom"] = Except.error "boom" ∧
    queryHasAnyRow
        [Except.ok ⟨"QueryProperties", "qp", [], []⟩,
          Except.ok ⟨"PrimaryResult", "pr", [], [Except.ok []]⟩] =
      Except.ok true :=
  ⟨(queryHasAnyRow_spec [Except.error "boom"]).2.2.1 [] "boom" [] rfl
      (by intro x hx; cases hx),
   ((queryHasAnyRow_spec _).2.1
      (by
        intro x hx
        rcases List.mem_cons.1 hx with h | hx2
        · exact ⟨⟨"QueryProperties", "qp", [], []⟩, h,
            fun hn => absurd hn (by decide)⟩
        · rcases List.mem_cons.1 hx2 with h2 | h3
          · exact ⟨⟨"PrimaryResult", "pr", [], [Except.ok []]⟩, h2,
              by
                intro _ r hr
                rcases List.mem_singleton.1 hr with rfl
                exact ⟨[], rfl⟩⟩
          · cases h3)).2
      ⟨⟨"PrimaryResult", "pr", [], [Except.ok []]⟩,
        by simp, rfl, by simp⟩⟩

theorem recLookup_mapSet_ne (m : Record) (kk k : String) (v : FieldVal)
    (h : kk ≠ k) : recLookup (mapSet m kk v) k = recLookup m k := by
  unfold mapSet recLookup
  by_cases ha : m.any (fun p => p.1 = kk)
  · rw [if_pos ha, List.find?_map]
    have hpf : ((fun p : String × FieldVal => decide (p.1 = k)) ∘
        (fun p => if p.1 = kk then (kk, v) else p)) =
        fun p : String × FieldVal => decide (p.1 = k) := by
      funext p
      by_cases hp : p.1 = kk
      · simp [hp, h]
      · simp [hp]
    rw [hpf]
    cases hf : m.find? (fun p : String × FieldVal => decide (p.1 = k)) with
    | none => simp
    | some a =>
      have ha1 : a.1 = k := by simpa using List.find?_some hf
      have hak : ¬ a.1 = kk := by rw [ha1]; exact fun hk => h hk.symm
      simp [hak]
  · rw [if_neg ha, List.find?_append]
    have hone : List.find? (fun p : String × FieldVal => decide (p.1 = k))
        [(kk, v)] = none := by simp [h]
    rw [hone, Option.or_none]

theorem mapSet_keys_nodup (m : Record) (kk : String) (v : FieldVal)
    (h : (m.map Prod.fst).Nodup) :
    ((mapSet m kk v).map Prod.fst).Nodup := by
  unfold mapSet
  by_cases ha : m.any (fun p => p.1 = kk)
  · rw [if_pos ha]
    have hkeys : (m.map (fun p => if p.1 = kk then (kk, v) else p)).map
        Prod.fst = m.map Prod.fst := by
      rw [List.map_map]
      apply List.map_congr_left
      intro p _
      by_cases hpk : p.1 = kk <;> simp [hpk]
    rw [hkeys]
    exact h
  · rw [if_neg ha, List.map_append]
    have hnk : kk ∉ m.map Prod.fst := by
      intro hmem
      obtain ⟨p, hp, hpk⟩ := List.mem_map.1 hmem
      rw [List.any_eq_true] at ha
      exact ha ⟨p, hp, by simp [hpk]⟩
    rw [List.nodup_append]
    exact ⟨h, List.nodup_singleton _, by
      intro a hak hmem
      rcases List.mem_singleton.1 hmem with rfl
      exact hnk hak⟩

theorem recLookup_projectCols_ne (parse : String → Option JsonVal)
    (cols : List Col) (k : String) (h : ∀ c ∈ cols, c.name ≠ k) :
    ∀ (i : Nat) (vals : List (Option GoAny)) (acc : Record),
      recLookup (projectCols parse cols i vals acc) k = recLookup acc k := by
  induction cols with
  | nil => intro i vals acc; rfl
  | cons c cs ih =>
    intro i vals acc
    have hc := h c (List.mem_cons_self _ _)
    have hcs : ∀ x ∈ cs, x.name ≠ k := fun x hx =>
      h x (List.mem_cons_of_mem _ hx)
    by_cases hi : i < vals.length
    · rw [projectCols, dif_pos hi, ih hcs, recLookup_mapSet_ne _ _ _ _ hc]
    · rw [projectCols, dif_neg hi, ih hcs]

theorem projectCols_keys_nodup (parse : String → Option JsonVal)
    (cols : List Col) :
    ∀ (i : Nat) (vals : List (Option GoAny)) (acc : Record),
      (acc.map Prod.fst).Nodup →
      ((projectCols parse cols i vals acc).map Prod.fst).Nodup := by
  induction cols with
  | nil => intro i vals acc hacc; exact hacc
  | cons c cs ih =>
    intro i vals acc hacc
    by_cases hi : i < vals.length
    · rw [projectCols, dif_pos hi]
      exact ih _ _ _ (mapSet_keys_nodup _ _ _ hacc)
    · rw [projectCols, dif_neg hi]
      exact ih _ _ _ hacc

theorem projectRow_base_eq (x y z : FieldVal) :
    mapSet (mapSet (mapSet [] "_table" x) "_kind" y) "_rowIndex" z =
      [("_table", x), ("_kind", y), ("_rowIndex", z)] := by
  simp [mapSet]

/-- Synthetic keys of a projected row, provided no column reuses one of the
three reserved names. -/
theorem projectRow_synthetic_keys (parse : String → Option JsonVal)
    (tname kind : String) (idx : Int) (cols : List Col)
    (vals : List (Option GoAny))
    (h : ∀ c ∈ cols,
      c.name ≠ "_table" ∧ c.name ≠ "_kind" ∧ c.name ≠ "_rowIndex") :
    recLookup (projectRow parse tname kind idx cols vals) "_table" =
      some (FieldVal.raw (GoAny.goStr tname)) ∧
    recLookup (projectRow parse tname kind idx cols vals) "_kind" =
      some (FieldVal.raw (GoAny.goStr kind)) ∧
    recLookup (projectRow parse tname kind idx cols vals) "_rowIndex" =
      some (FieldVal.raw (GoAny.goInt idx)) := by
  unfold projectRow
  rw [projectRow_base_eq]
  refine ⟨?_, ?_, ?_⟩
  · rw [recLookup_projectCols_ne parse cols _ (fun c hc => (h c hc).1)]
    simp [recLookup]
  · rw [recLookup_projectCols_ne parse cols _ (fun c hc => (h c hc).2.1)]
    simp [recLookup]
  · rw [recLookup_projectCols_ne parse cols _ (fun c hc => (h c hc).2.2)]
    simp [recLookup]

theorem emitRowRecords_synthetic (parse : String → Option JsonVal)
    (tname kind : String) (cols : List Col)
    (hcols : ∀ c ∈ cols,
      c.name ≠ "_table" ∧ c.name ≠ "_kind" ∧ c.name ≠ "_rowIndex") :
    ∀ (rows : List (Except String (List (Option GoAny)))) (idx : Int)
      (i : Nat) (r : Record),
      ((emitRowRecords parse tname kind cols rows idx).1).get? i = some r →
      recLookup r "_table" = some (FieldVal.raw (GoAny.goStr tname)) ∧
      recLookup r "_kind" = some (FieldVal.raw (GoAny.goStr kind)) ∧
      recLookup r "_rowIndex" =
        some (FieldVal.raw (GoAny.goInt (idx + i))) := by
  intro rows
  induction rows with
  | nil => intro idx i r hr; simp [emitRowRecords] at hr
  | cons x rest ih =>
    intro idx i r hr
    cases x with
    | error e => simp [emitRowRecords] at hr
    | ok vals =>
      cases i with
      | zero =>
        have hr0 : r = projectRow parse tname kind idx cols vals := by
          simp [emitRowRecords] at hr
          exact hr.symm
        subst hr0
        simpa using projectRow_synthetic_keys parse tname kind idx cols vals
          hcols
      | succ n =>
        have hrn : ((emitRowRecords parse tname kind cols rest
            (idx + 1)).1).get? n = some r := by
          simpa [emitRowRecords] using hr
        obtain ⟨h1, h2, h3⟩ := ih (idx + 1) n r hrn
        refine ⟨h1, h2, ?_⟩
        have hcast : (idx + 1 + (n : Int)) = idx + ((n + 1 : Nat) : Int) := by
          push_cast
          ring
        rw [h3, hcast]

/-! ## C7: synthetic record keys -/

/-- C7 counterexample: a selected column named `_rowIndex` overwrites the
synthetic key (Go map assignment), so both emitted records carry the column
value under `_rowIndex`: the values are not the zero-based increasing row
indices, and the first record does not hold index 0. -/
theorem synthetic_keys_counterexample :
    ((tableRecords (fun _ => none)
        ⟨"T", "k", [⟨"_rowIndex", ColType.stringT⟩],
          [Except.ok [some (GoAny.goStr "x")],
            Except.ok [some (GoAny.goStr "x")]]⟩).1.map
      (fun r => recLookup r "_rowIndex")) =
      [some (FieldVal.raw (GoAny.goStr "x")),
        some (FieldVal.raw (GoAny.goStr "x"))] ∧
    ((tableRecords (fun _ => none)
        ⟨"T", "k", [⟨"_rowIndex", ColType.stringT⟩],
          [Except.ok [some (GoAny.goStr "x")],
            Except.ok [some (GoAny.goStr "x")]]⟩).1.map
      (fun r => recLookup r "_rowIndex")) ≠
      [some (FieldVal.raw (GoAny.goInt 0)),
        some (FieldVal.raw (GoAny.goInt 1))] := by
  decide

/-- C7 (amended): every emitted record carries `_table`, `_kind` and
`_rowIndex`; when no selected column is named `_table`, `_kind` or
`_rowIndex`, they hold the table name, the table kind and the zero-based
row ordinal, which therefore increases by one per emitted record of the
table (a column sharing one of those names overwrites the synthetic
value). -/
theorem tableRecords_synthetic_keys (parse : String → Option JsonVal)
    (t : KTable)
    (hcols : ∀ c ∈ t.cols,
      c.name ≠ "_table" ∧ c.name ≠ "_kind" ∧ c.name ≠ "_rowIndex") :
    ∀ (i : Nat) (r : Record), ((tableRecords parse t).1).get? i = some r →
      recLookup r "_table" = some (FieldVal.raw (GoAny.goStr t.name)) ∧
      recLookup r "_kind" = some (FieldVal.raw (GoAny.goStr t.kind)) ∧
      recLookup r "_rowIndex" = some (FieldVal.raw (GoAny.goInt i)) := by
  intro i r hr
  have h := emitRowRecords_synthetic parse t.name t.kind t.cols hcols t.rows
    0 i r hr
  simpa using h

/-- Witness for the amended C7 at a concrete two-row table. -/
theorem tableRecords_synthetic_keys_witness :
    recLookup (projectRow (fun _ => none) "T" "k" 0
        [⟨"Msg", ColType.stringT⟩] [some (GoAny.goStr "a")]) "_rowIndex" =
      some (FieldVal.raw (GoAny.goInt 0)) ∧
    recLookup (projectRow (fun _ => none) "T" "k" 1
        [⟨"Msg", ColType.stringT⟩] [some (GoAny.goStr "b")]) "_rowIndex" =
      some (FieldVal.raw (GoAny.goInt 1)) :=
  ⟨(tableRecords_synthetic_keys (fun _ => none)
      ⟨"T", "k", [⟨"Msg", ColType.stringT⟩],
        [Except.ok [some (GoAny.goStr "a")],
          Except.ok [some (GoAny.goStr "b")]]⟩
      (by decide) 0 _ rfl).2.2,
   (tableRecords_synthetic_keys (fun _ => none)
      ⟨"T", "k", [⟨"Msg", ColType.stringT⟩],
        [Except.ok [some (GoAny.goStr "a")],
          Except.ok [some (GoAny.goStr "b")]]⟩
      (by decide) 1 _ rfl).2.2⟩

theorem insertByKey_perm (p : String × FieldVal) (l : Record) :
    (insertByKey p l).Perm (p :: l) := by
  induction l with
  | nil => exact List.Perm.refl _
  | cons q r ih =>
    by_cases hpq : p.1 ≤ q.1
    · rw [insertByKey, if_pos hpq]
    · rw [insertByKey, if_neg hpq]
      exact (ih.cons q).trans (List.Perm.swap p q r)

theorem sortByKey_perm (l : Record) : (sortByKey l).Perm l := by
  induction l with
  | nil => exact List.Perm.refl _
  | cons p r ih =>
    exact (insertByKey_perm p (sortByKey r)).trans (ih.cons p)

theorem sorted_insertByKey (p : String × FieldVal) (l : Record)
    (h : List.Sorted keyLe l) : List.Sorted keyLe (insertByKey p l) := by
  induction l with
  | nil => simp [insertByKey]
  | cons q r ih =>
    rw [List.sorted_cons] at h
    obtain ⟨hq, hr⟩ := h
    by_cases hpq : p.1 ≤ q.1
    · rw [insertByKey, if_pos hpq, List.sorted_cons]
      refine ⟨?_, by rw [List.sorted_cons]; exact ⟨hq, hr⟩⟩
      intro b hb
      rcases List.mem_cons.1 hb with rfl | hb2
      · exact hpq
      · exact le_trans hpq (hq b hb2)
    · rw [insertByKey, if_neg hpq, List.sorted_cons]
      refine ⟨?_, ih hr⟩
      intro b hb
      rcases List.mem_cons.1 ((insertByKey_perm p r).mem_iff.1 hb) with rfl | h3
      · exact le_of_not_le hpq
      · exact hq b h3

theorem sorted_sortByKey (l : Record) : List.Sorted keyLe (sortByKey l) := by
  induction l with
  | nil => simp [sortByKey]
  | cons p r ih => exact sorted_insertByKey p (sortByKey r) ih

theorem sorted_keyLt_of_nodup (l : Record) (hs : List.Sorted keyLe l)
    (hn : (l.map Prod.fst).Nodup) : List.Sorted keyLt l := by
  have hne : List.Pairwise (fun a b : String × FieldVal => a.1 ≠ b.1) l :=
    List.pairwise_map.1 hn
  exact (hs.and hne).imp (fun h => lt_of_le_of_ne h.1 h.2)

theorem sortByKey_eq_of_perm (l₁ l₂ : Record) (h12 : l₁.Perm l₂)
    (hn : (l₁.map Prod.fst).Nodup) : sortByKey l₁ = sortByKey l₂ := by
  have hp1 := sortByKey_perm l₁
  have hp2 := sortByKey_perm l₂
  have hn2 : (l₂.map Prod.fst).Nodup := (h12.map Prod.fst).nodup hn
  have hns1 : ((sortByKey l₁).map Prod.fst).Nodup :=
    ((hp1.map Prod.fst).symm).nodup hn
  have hns2 : ((sortByKey l₂).map Prod.fst).Nodup :=
    ((hp2.map Prod.fst).symm).nodup hn2
  exact List.eq_of_perm_of_sorted (hp1.trans (h12.trans hp2.symm))
    (sorted_keyLt_of_nodup _ (sorted_sortByKey l₁) hns1)
    (sorted_keyLt_of_nodup _ (sorted_sortByKey l₂) hns2)

theorem marshalRecord_reorder_eq (re₁ re₂ : Record → Record)
    (h₁ : ∀ l, (re₁ l).Perm l) (h₂ : ∀ l, (re₂ l).Perm l) (r : Record)
    (hr : (r.map Prod.fst).Nodup) :
    marshalRecord re₁ r = marshalRecord re₂ r := by
  unfold marshalRecord
  have hs : sortByKey (re₁ r) = sortByKey (re₂ r) :=
    sortByKey_eq_of_perm _ _ ((h₁ r).trans (h₂ r).symm)
      (((h₁ r).map Prod.fst).symm.nodup hr)
  rw [hs]

theorem projectRow_keys_nodup (parse : String → Option JsonVal)
    (tname kind : String) (idx : Int) (cols : List Col)
    (vals : List (Option GoAny)) :
    ((projectRow parse tname kind idx cols vals).map Prod.fst).Nodup := by
  unfold projectRow
  apply projectCols_keys_nodup
  rw [projectRow_base_eq]
  simp

theorem emitRowRecords_keys_nodup (parse : String → Option JsonVal)
    (tname kind : String) (cols : List Col) :
    ∀ (rows : List (Except String (List (Option GoAny)))) (idx : Int)
      (r : Record), r ∈ (emitRowRecords parse tname kind cols rows idx).1 →
      (r.map Prod.fst).Nodup := by
  intro rows
  induction rows with
  | nil => intro idx r hr; simp [emitRowRecords] at hr
  | cons x rest ih =>
    intro idx r hr
    cases x with
    | error e => simp [emitRowRecords] at hr
    | ok vals =>
      simp only [emitRowRecords] at hr
      rcases List.mem_cons.1 hr with rfl | h2
      · exact projectRow_keys_nodup parse tname kind idx cols vals
      · exact ih (idx + 1) r h2

/-! ## C9: deterministic NDJSON output -/

/-- C9: the NDJSON byte output of the default query mode does not depend on
the order in which the Go map hands its entries to the encoder (the only
run-to-run nondeterminism for identical configuration and stream): two runs
whose map iteration orders are arbitrary permutations produce identical
output, so the key order of each serialized record does not vary between
runs. -/
theorem ndjson_deterministic (parse : String → Option JsonVal)
    (re₁ re₂ : Record → Record) (h₁ : ∀ l, (re₁ l).Perm l)
    (h₂ : ∀ l, (re₂ l).Perm l) (ts : List (Except String KTable)) :
    emitTables parse re₁ ts = emitTables parse re₂ ts := by
  induction ts with
  | nil => rfl
  | cons x rest ih =>
    cases x with
    | error e => rfl
    | ok t =>
      have hlines : (tableRecords parse t).1.map (marshalRecord re₁) =
          (tableRecords parse t).1.map (marshalRecord re₂) := by
        apply List.map_congr_left
        intro r hr
        exact marshalRecord_reorder_eq re₁ re₂ h₁ h₂ r
          (emitRowRecords_keys_nodup parse t.name t.kind t.cols t.rows 0 r hr)
      simp only [emitTables]
      rw [hlines, ih]

/-- Witness for C9: reversed map iteration order against identity order on a
concrete stream with a dynamic column. -/
theorem ndjson_deterministic_witness :
    emitTables (fun _ => none) (fun l => l.reverse)
        [Except.ok ⟨"PrimaryResult", "pr",
          [⟨"B", ColType.stringT⟩, ⟨"A", ColType.dynamic⟩],
          [Except.ok [some (GoAny.goStr "v"), some (GoAny.goBytes "p")]]⟩] =
      emitTables (fun _ => none) (fun l => l)
        [Except.ok ⟨"PrimaryResult", "pr",
          [⟨"B", ColType.stringT⟩, ⟨"A", ColType.dynamic⟩],
          [Except.ok [some (GoAny.goStr "v"), some (GoAny.goBytes "p")]]⟩] :=
  ndjson_deterministic (fun _ => none) (fun l => l.reverse) (fun l => l)
    (fun l => List.reverse_perm l) (fun l => List.Perm.refl l) _

end KustoExample
